import Mathlib

/-!
# MHChain: the block and chain core of `mhchain.go`

A shallow embedding of the Go source (`src/mhchain.go`; `src/mhchain_.go` is a
byte-for-byte duplicate of its declarations) together with the two standard
library routines it calls, `bytes.Join` and `crypto/sha256.Sum256`.

Modelling conventions.

* A Go `byte` is `Fin 256`; a `[]byte` is a `List Byte`; a Go `string` is an
  immutable byte sequence, so `[]byte(data)` is the identity on `GoString`.
* `*Block` pointers held by a chain are modelled by value; a method that
  writes through its receiver returns the updated record. `Heap.CreateBlock`
  and `Heap.DeriveHash` are the same two functions with the pointer kept and
  the heap passed explicitly.
* 32-bit words of SHA-256 are natural numbers reduced `% 2 ^ 32`.
* A run-time panic is `Except.error`; a normal return is `Except.ok` carrying
  the state after the call.
-/

namespace MHChain

/-- A Go `byte`. -/
abbrev Byte := Fin 256

/-- A Go `string`: an immutable sequence of bytes. -/
abbrev GoString := List Byte

/-- Conversion `byte(n)` of an integer, keeping the low eight bits. -/
def byteOf (n : Nat) : Byte := ⟨n % 256, Nat.mod_lt n (by decide)⟩

/-- A Go string literal: the UTF-8 bytes of the text. -/
def str (s : String) : GoString :=
  s.toUTF8.data.toList.map fun b => byteOf b.toNat

/-! ## `bytes.Join` -/

namespace bytes

/-- Go `bytes.Join(s, sep)`: the elements of `s` with `sep` between
consecutive elements; the empty slice when `s` is empty. -/
def Join : List (List Byte) → List Byte → List Byte
  | [], _ => []
  | v0 :: rest, sep => rest.foldl (fun b v => b ++ sep ++ v) v0

end bytes

/-! ## `crypto/sha256` (FIPS 180-4), generic block function -/

namespace sha256

/-- The round constants `_K` (FIPS 180-4, section 4.2.2), in decimal: `K[0]` is
`0x428a2f98` and `K[63]` is `0xc67178f2`. -/
def K : List Nat := [
  1116352408, 1899447441, 3049323471, 3921009573, 961987163, 1508970993,
  2453635748, 2870763221, 3624381080, 310598401, 607225278, 1426881987,
  1925078388, 2162078206, 2614888103, 3248222580, 3835390401, 4022224774,
  264347078, 604807628, 770255983, 1249150122, 1555081692, 1996064986,
  2554220882, 2821834349, 2952996808, 3210313671, 3336571891, 3584528711,
  113926993, 338241895, 666307205, 773529912, 1294757372, 1396182291,
  1695183700, 1986661051, 2177026350, 2456956037, 2730485921, 2820302411,
  3259730800, 3345764771, 3516065817, 3600352804, 4094571909, 275423344,
  430227734, 506948616, 659060556, 883997877, 958139571, 1322822218,
  1537002063, 1747873779, 1955562222, 2024104815, 2227730452, 2361852424,
  2428436474, 2756734187, 3204031479, 3329325298]

/-- Truncation to a `uint32`. -/
def u32 (x : Nat) : Nat := x % 2 ^ 32

/-- Rotation of a 32-bit word to the right, `bits.RotateLeft32(x, -n)`. -/
def rotr (x n : Nat) : Nat := u32 ((x >>> n) ||| (x <<< (32 - n)))

/-- The eight chaining words `h[0..7]` of a digest in progress. -/
structure Digest where
  h0 : Nat
  h1 : Nat
  h2 : Nat
  h3 : Nat
  h4 : Nat
  h5 : Nat
  h6 : Nat
  h7 : Nat
deriving DecidableEq, Repr

/-- The initial chaining value `init0 .. init7`. -/
def init : Digest :=
  ⟨0x6a09e667, 0xbb67ae85, 0x3c6ef372, 0xa54ff53a, 0x510e527f, 0x9b05688c, 0x1f83d9ab, 0x5be0cd19⟩

/-- Big-endian 32-bit word at byte offset `j` of a chunk. -/
def word (p : List Byte) (j : Nat) : Nat :=
  ((p.getD j 0).val <<< 24) ||| ((p.getD (j + 1) 0).val <<< 16) |||
    ((p.getD (j + 2) 0).val <<< 8) ||| (p.getD (j + 3) 0).val

/-- One step `w[i] = t1 + w[i-7] + t2 + w[i-16]` of the message schedule,
appending `w[i]` to the words `w[0..i-1]`. -/
def schedStep (w : List Nat) (i : Nat) : List Nat :=
  let v1 := w.getD (i - 2) 0
  let t1 := rotr v1 17 ^^^ rotr v1 19 ^^^ (v1 >>> 10)
  let v2 := w.getD (i - 15) 0
  let t2 := rotr v2 7 ^^^ rotr v2 18 ^^^ (v2 >>> 3)
  w ++ [u32 (t1 + w.getD (i - 7) 0 + t2 + w.getD (i - 16) 0)]

/-- The 64-word message schedule of one 64-byte chunk. -/
def schedule (p : List Byte) : List Nat :=
  ((List.range 48).map (· + 16)).foldl schedStep ((List.range 16).map fun i => word p (i * 4))

/-- Round `i` of the compression function on the working variables `a .. h`. -/
def round (w : List Nat) (s : Digest) (i : Nat) : Digest :=
  match s with
  | ⟨a, b, c, d, e, f, g, h⟩ =>
    let t1 := u32 (h + (rotr e 6 ^^^ rotr e 11 ^^^ rotr e 25) +
      ((e &&& f) ^^^ ((e ^^^ 0xffffffff) &&& g)) + K.getD i 0 + w.getD i 0)
    let t2 := u32 ((rotr a 2 ^^^ rotr a 13 ^^^ rotr a 22) +
      ((a &&& b) ^^^ (a &&& c) ^^^ (b &&& c)))
    ⟨u32 (t1 + t2), a, b, c, u32 (d + t1), e, f, g⟩

/-- The compression of one 64-byte chunk into the chaining value. -/
def block (dig : Digest) (p : List Byte) : Digest :=
  let w := schedule p
  let s := (List.range 64).foldl (round w) dig
  ⟨u32 (dig.h0 + s.h0), u32 (dig.h1 + s.h1), u32 (dig.h2 + s.h2), u32 (dig.h3 + s.h3),
   u32 (dig.h4 + s.h4), u32 (dig.h5 + s.h5), u32 (dig.h6 + s.h6), u32 (dig.h7 + s.h7)⟩

/-- The padding written by `checkSum` after a message of `len` bytes: `0x80`,
zero bytes up to 56 modulo 64, then the bit length as a big-endian `uint64`. -/
def padding (len : Nat) : List Byte :=
  let t := if len % 64 < 56 then 56 - len % 64 else 64 + 56 - len % 64
  let bits := (len <<< 3) % 2 ^ 64
  (0x80 : Byte) :: List.replicate (t - 1) 0 ++
    (List.range 8).map fun i => byteOf (bits >>> (8 * (7 - i)))

/-- All complete 64-byte chunks of `p`, compressed in order. -/
def blocks (dig : Digest) (p : List Byte) : Digest :=
  (List.range (p.length / 64)).foldl (fun d i => block d ((p.drop (64 * i)).take 64)) dig

/-- Big-endian bytes of a 32-bit word, `binary.BigEndian.PutUint32`. -/
def putUint32 (x : Nat) : List Byte :=
  [byteOf (x >>> 24), byteOf (x >>> 16), byteOf (x >>> 8), byteOf x]

/-- Go `sha256.Sum256(data)`: the SHA-256 checksum, a `[32]byte`. -/
def Sum256 (data : List Byte) : List Byte :=
  let d := blocks init (data ++ padding data.length)
  putUint32 d.h0 ++ putUint32 d.h1 ++ putUint32 d.h2 ++ putUint32 d.h3 ++
  putUint32 d.h4 ++ putUint32 d.h5 ++ putUint32 d.h6 ++ putUint32 d.h7

end sha256

/-! ## The source: `Block`, `BlockChain`, `DeriveHash`, `CreateBlock`, `AddBlock` -/

/-- The record `Block` of the source. -/
structure Block where
  Hash : List Byte
  Data : List Byte
  PrevHash : List Byte
deriving DecidableEq, Repr

/-- The record `BlockChain` of the source. -/
structure BlockChain where
  blocks : List Block
deriving DecidableEq, Repr

/-- A run-time panic of the Go program. -/
inductive Fault where
  | indexOutOfRange (index : Int) (len : Nat)
  | nilDereference
deriving DecidableEq, Repr

/-- The index expression `s[i]` on a slice: the element when `0 ≤ i < len(s)`,
an index-out-of-range panic otherwise. -/
def sliceIndex {α : Type} (s : List α) (i : Int) : Except Fault α :=
  if 0 ≤ i then
    match s.get? i.toNat with
    | some x => Except.ok x
    | none => Except.error (Fault.indexOutOfRange i s.length)
  else Except.error (Fault.indexOutOfRange i s.length)

/-- The method `(b *Block) DeriveHash()`: joins `Data` and `PrevHash` with the
empty separator, hashes the result and stores it in `Hash`. -/
def Block.DeriveHash (b : Block) : Block :=
  let info := bytes.Join [b.Data, b.PrevHash] []
  let hash := sha256.Sum256 info
  { b with Hash := hash }

/-- The function `CreateBlock(data, prevHash)`. -/
def CreateBlock (data : GoString) (prevHash : List Byte) : Block :=
  let block : Block := ⟨[], data, prevHash⟩
  block.DeriveHash

/-- The method `(chain *BlockChain) AddBlock(data)`: its body is the single
statement `prevBlock := chain.blocks[len(chain.blocks)-1]`. The result is the
chain after the call. -/
def BlockChain.AddBlock (chain : BlockChain) (_data : GoString) : Except Fault BlockChain := do
  let _prevBlock ← sliceIndex chain.blocks ((chain.blocks.length : Int) - 1)
  pure chain

/-! ## Properties used by the statements -/

/-- Content integrity of one block: the stored `Hash` is the digest of
`Data` followed by `PrevHash`. -/
def Block.contentIntact (b : Block) : Prop :=
  b.Hash = sha256.Sum256 (b.Data ++ b.PrevHash)

instance (b : Block) : Decidable b.contentIntact := by
  unfold Block.contentIntact; infer_instance

/-- Content integrity of a chain: every block is intact. -/
def BlockChain.contentIntegrity (c : BlockChain) : Prop :=
  ∀ (i : Nat) (b : Block), c.blocks.get? i = some b → b.contentIntact

/-- Linkage of a chain: every block after the first names the hash of the
block before it. -/
def BlockChain.linkage (c : BlockChain) : Prop :=
  ∀ (i : Nat) (b p : Block), c.blocks.get? (i + 1) = some b → c.blocks.get? i = some p →
    b.PrevHash = p.Hash

/-- Modelled from the spec: `CreateGenesis`, which the source does not define.
The one-block chain `[CreateBlock(g, empty)]`; the genesis payload `g`, which
neither the source nor the spec fixes, is a parameter. -/
def genesisChain (g : GoString) : BlockChain := ⟨[CreateBlock g []]⟩

/-- The heap of the running program: the `Block` records allocated so far, in
allocation order. -/
structure Heap where
  cells : List Block
deriving DecidableEq, Repr

/-- A `*Block`: the position of the record in the heap. A position that holds
no record stands for the nil pointer. -/
abbrev Ptr := Nat

/-- Dereference of a `*Block`; the nil-pointer panic when there is no record. -/
def Heap.load (h : Heap) (p : Ptr) : Except Fault Block :=
  match h.cells.get? p with
  | some r => Except.ok r
  | none => Except.error Fault.nilDereference

/-- The method `(b *Block) DeriveHash()` run in heap `h`: reads `b.Data` and
`b.PrevHash`, and stores the digest of their join in `b.Hash`. The result is
the heap after the call. -/
def Heap.DeriveHash (h : Heap) (b : Ptr) : Except Fault Heap := do
  let r ← h.load b
  let info := bytes.Join [r.Data, r.PrevHash] []
  let hash := sha256.Sum256 info
  pure ⟨h.cells.set b { r with Hash := hash }⟩

/-- The function `CreateBlock(data, prevHash)` run in heap `h`: allocates
`&Block{[]byte{}, []byte(data), prevHash}`, calls `DeriveHash` on it and
returns the pointer. The result is the pointer and the heap after the call. -/
def Heap.CreateBlock (h : Heap) (data : GoString) (prevHash : List Byte) :
    Except Fault (Ptr × Heap) := do
  let block : Ptr := h.cells.length
  let h1 : Heap := ⟨h.cells ++ [⟨[], data, prevHash⟩]⟩
  let h2 ← h1.DeriveHash block
  pure (block, h2)

set_option maxRecDepth 100000

/-! ## Checks of the SHA-256 model against published test vectors -/

theorem str_abc : str "abc" = [0x61, 0x62, 0x63] := by decide

theorem Sum256_abc : sha256.Sum256 (str "abc") =
    [0xba, 0x78, 0x16, 0xbf, 0x8f, 0x01, 0xcf, 0xea, 0x41, 0x41, 0x40, 0xde, 0x5d, 0xae, 0x22, 0x23,
     0xb0, 0x03, 0x61, 0xa3, 0x96, 0x17, 0x7a, 0x9c, 0xb4, 0x10, 0xff, 0x61, 0xf2, 0x00, 0x15, 0xad] := by
  decide

theorem Sum256_empty : sha256.Sum256 [] =
    [0xe3, 0xb0, 0xc4, 0x42, 0x98, 0xfc, 0x1c, 0x14, 0x9a, 0xfb, 0xf4, 0xc8, 0x99, 0x6f, 0xb9, 0x24,
     0x27, 0xae, 0x41, 0xe4, 0x64, 0x9b, 0x93, 0x4c, 0xa4, 0x95, 0x99, 0x1b, 0x78, 0x52, 0xb8, 0x55] := by
  decide

theorem Sum256_two_chunks :
    sha256.Sum256 (str "abcdbcdecdefdefgefghfghighijhijkijkljklmklmnlmnomnopnopq") =
    [0x24, 0x8d, 0x6a, 0x61, 0xd2, 0x06, 0x38, 0xb8, 0xe5, 0xc0, 0x26, 0x93, 0x0c, 0x3e, 0x60, 0x39,
     0xa3, 0x3c, 0xe4, 0x59, 0x64, 0xff, 0x21, 0x67, 0xf6, 0xec, 0xed, 0xd4, 0x19, 0xdb, 0x06, 0xc1] := by
  decide

/-! ## Lemmas -/

theorem Join_pair (a b : List Byte) : bytes.Join [a, b] [] = a ++ b := by
  simp [bytes.Join]

theorem Sum256_length (data : List Byte) : (sha256.Sum256 data).length = 32 := by
  simp [sha256.Sum256, sha256.putUint32]

theorem CreateBlock_eq (data : GoString) (prevHash : List Byte) :
    CreateBlock data prevHash = ⟨sha256.Sum256 (data ++ prevHash), data, prevHash⟩ := by
  simp [CreateBlock, Block.DeriveHash, Join_pair]

theorem sliceIndex_last {α : Type} (s : List α) (h : s ≠ []) :
    sliceIndex s ((s.length : Int) - 1) = Except.ok (s.getLast h) := by
  have hpos : 0 < s.length := List.length_pos.mpr h
  have h0 : (0 : Int) ≤ (s.length : Int) - 1 := by omega
  have hn : ((s.length : Int) - 1).toNat = s.length - 1 := by omega
  have hg : s[s.length - 1]? = some (s.getLast h) := by
    rw [List.getLast_eq_getElem]
    exact List.getElem?_eq_getElem (by omega)
  simp [sliceIndex, h0, hn, hg]

theorem AddBlock_of_ne_nil (chain : BlockChain) (data : GoString) (h : chain.blocks ≠ []) :
    chain.AddBlock data = Except.ok chain := by
  simp only [BlockChain.AddBlock, sliceIndex_last chain.blocks h]
  rfl

theorem AddBlock_nil (data : GoString) :
    (BlockChain.mk []).AddBlock data = Except.error (Fault.indexOutOfRange (-1) 0) := by
  rfl

theorem genesisChain_contentIntegrity (g : GoString) : (genesisChain g).contentIntegrity := by
  intro i b hb
  cases i with
  | zero =>
    simp [genesisChain] at hb
    subst hb
    simp [Block.contentIntact, CreateBlock_eq]
  | succ n => simp [genesisChain] at hb

theorem genesisChain_linkage (g : GoString) : (genesisChain g).linkage := by
  intro i b p hb _
  simp [genesisChain] at hb

theorem Sum256_collision_exists :
    ∃ x y : List Byte, x ≠ y ∧ sha256.Sum256 x = sha256.Sum256 y := by
  let f : Mathlib.Vector Byte 33 → Mathlib.Vector Byte 32 :=
    fun v => ⟨sha256.Sum256 v.toList, Sum256_length v.toList⟩
  have hcard : Fintype.card (Mathlib.Vector Byte 32) < Fintype.card (Mathlib.Vector Byte 33) := by
    rw [card_vector, card_vector, Fintype.card_fin]
    exact Nat.pow_lt_pow_right (by decide) (by decide)
  obtain ⟨x, y, hxy, hf⟩ := Fintype.exists_ne_map_eq_of_card_lt f hcard
  refine ⟨x.toList, y.toList, ?_, ?_⟩
  · intro h
    exact hxy (Subtype.ext h)
  · exact congrArg Subtype.val hf

theorem DeriveHash_eq (b : Block) :
    b.DeriveHash = ⟨sha256.Sum256 (b.Data ++ b.PrevHash), b.Data, b.PrevHash⟩ := by
  simp [Block.DeriveHash, Join_pair]

theorem Heap_CreateBlock_eq (h : Heap) (data : GoString) (prevHash : List Byte) :
    h.CreateBlock data prevHash
      = Except.ok (h.cells.length, Heap.mk (h.cells ++ [CreateBlock data prevHash])) := by
  have hget : (h.cells ++ [Block.mk [] data prevHash])[h.cells.length]?
      = some (Block.mk [] data prevHash) := by simp
  simp only [Heap.CreateBlock, Heap.DeriveHash, Heap.load, List.get?_eq_getElem?, hget]
  simp [CreateBlock_eq, Join_pair, bind, Except.bind, pure, Except.pure]

theorem Heap_load_last (cells : List Block) (b : Block) :
    (Heap.mk (cells ++ [b])).load cells.length = Except.ok b := by
  simp [Heap.load]

theorem Heap_CreateBlock_twice (h : Heap) (data : GoString) (prevHash : List Byte) :
    (h.CreateBlock data prevHash >>= fun r => r.2.CreateBlock data prevHash)
      = Except.ok (h.cells.length + 1,
          Heap.mk (h.cells ++ [CreateBlock data prevHash, CreateBlock data prevHash])) := by
  rw [Heap_CreateBlock_eq]
  show (Heap.mk (h.cells ++ [CreateBlock data prevHash])).CreateBlock data prevHash = _
  rw [Heap_CreateBlock_eq]
  simp

/-- C1: for every payload `data` and every `prevHash`, the block returned by
`CreateBlock data prevHash` has `Hash` equal to SHA-256 of the bytes of `data`
followed by `prevHash`, payload first and with no separator. -/
theorem CreateBlock_hash (data : GoString) (prevHash : List Byte) :
    (CreateBlock data prevHash).Hash = sha256.Sum256 (data ++ prevHash) := by
  simp [CreateBlock, Block.DeriveHash, Join_pair]

/-- C2, the code at the failing input: on the one-block genesis chain,
`AddBlock "first"` returns normally with the chain as it was. Its length stays
1, and the result is not the old sequence followed by
`CreateBlock "first" tailHash`. -/
theorem AddBlock_genesis_first_unchanged :
    (genesisChain (str "genesis")).AddBlock (str "first")
        = Except.ok (genesisChain (str "genesis")) ∧
      (genesisChain (str "genesis")).blocks.length = 1 ∧
      (genesisChain (str "genesis")).AddBlock (str "first")
        ≠ Except.ok (BlockChain.mk ((genesisChain (str "genesis")).blocks ++
            [CreateBlock (str "first") (CreateBlock (str "genesis") []).Hash])) := by
  have h : (genesisChain (str "genesis")).blocks ≠ [] := by simp [genesisChain]
  refine ⟨AddBlock_of_ne_nil _ _ h, rfl, ?_⟩
  rw [AddBlock_of_ne_nil _ _ h]
  intro hc
  have hl := congrArg (fun r => match r with
    | Except.ok c => c.blocks.length
    | Except.error _ => 0) hc
  simp [genesisChain] at hl

/-- C3, counterexample: `AddBlock "first"` on the chain with no blocks ends in
the run-time panic for index -1 of a slice of length 0, so it is not true that
it never faults. -/
theorem AddBlock_empty_first_faults :
    (BlockChain.mk []).AddBlock (str "first") = Except.error (Fault.indexOutOfRange (-1) 0) ∧
      ¬ ∀ f : Fault, (BlockChain.mk []).AddBlock (str "first") ≠ Except.error f := by
  exact ⟨AddBlock_nil _, fun h => h (Fault.indexOutOfRange (-1) 0) (AddBlock_nil _)⟩

/-- C3, amended: for every payload, `AddBlock` on a chain whose block sequence
is empty does not return; the tail read at index `len - 1 = -1` is out of
range and the call ends in the index-out-of-range panic. -/
theorem AddBlock_empty_faults (data : GoString) :
    (BlockChain.mk []).AddBlock data = Except.error (Fault.indexOutOfRange (-1) 0) := by
  rfl

/-- C5, counterexample: it is not true that overwriting `Data` of a block made
by `CreateBlock` with any different byte sequence always breaks content
integrity. SHA-256 maps the 33-byte inputs into 32-byte outputs, so two
different payloads share a digest, and overwriting one with the other leaves
the stored `Hash` equal to the recomputed one. -/
theorem tamper_detection_not_universal :
    ¬ ∀ (data : GoString) (prevHash data2 : List Byte), data2 ≠ data →
        ¬ ({ CreateBlock data prevHash with Data := data2 } : Block).contentIntact := by
  intro hall
  obtain ⟨x, y, hxy, hsum⟩ := Sum256_collision_exists
  apply hall x [] y (Ne.symm hxy)
  simp [Block.contentIntact, CreateBlock_eq, hsum]

/-- C5, amended: for every block made by `CreateBlock data prevHash`, if `Data`
and `PrevHash` are overwritten with `data2` and `prevHash2` (either may stay as
it was) without re-running `DeriveHash`, and SHA-256 of `data2 ++ prevHash2`
differs from SHA-256 of `data ++ prevHash`, then the stored `Hash` no longer
equals the recomputed digest: content integrity fails at that block. -/
theorem tamper_detected_of_digest_ne (data : GoString) (prevHash data2 prevHash2 : List Byte)
    (h : sha256.Sum256 (data2 ++ prevHash2) ≠ sha256.Sum256 (data ++ prevHash)) :
    ¬ ({ CreateBlock data prevHash with Data := data2, PrevHash := prevHash2 } : Block).contentIntact := by
  intro hc
  apply h
  simpa [Block.contentIntact, CreateBlock_eq] using hc.symm

/-- C5, witness: the block `CreateBlock "first" h`, with `h` the hash of the
genesis block, and `Data` overwritten to `"tampered"`. -/
theorem tamper_detected_witness :
    sha256.Sum256 (str "tampered" ++ (CreateBlock (str "genesis") []).Hash)
        ≠ sha256.Sum256 (str "first" ++ (CreateBlock (str "genesis") []).Hash) ∧
      ¬ ({ CreateBlock (str "first") (CreateBlock (str "genesis") []).Hash with
            Data := str "tampered",
            PrevHash := (CreateBlock (str "genesis") []).Hash } : Block).contentIntact :=
  ⟨by decide,
   tamper_detected_of_digest_ne (str "first") (CreateBlock (str "genesis") []).Hash
     (str "tampered") (CreateBlock (str "genesis") []).Hash (by decide)⟩

/-- C6: block construction is deterministic: for every `data` and `prevHash`,
two evaluations of `CreateBlock`, run in any two program states `h1` and `h2`,
both return, and the blocks behind the two returned pointers have identical
`Hash`, `Data` and `PrevHash`. The block is the function
`CreateBlock data prevHash` of the two inputs only, and the records that
were allocated before the call are left as they were. -/
theorem CreateBlock_deterministic (h1 h2 : Heap) (data : GoString) (prevHash : List Byte) :
    ∃ (p1 p2 : Ptr) (s1 s2 : Heap) (b1 b2 : Block),
      h1.CreateBlock data prevHash = Except.ok (p1, s1) ∧
      h2.CreateBlock data prevHash = Except.ok (p2, s2) ∧
      s1.load p1 = Except.ok b1 ∧ s2.load p2 = Except.ok b2 ∧
      (b1.Hash = b2.Hash ∧ b1.Data = b2.Data ∧ b1.PrevHash = b2.PrevHash) ∧
      b1 = CreateBlock data prevHash ∧
      (∀ q : Ptr, q < h1.cells.length → s1.cells.get? q = h1.cells.get? q) ∧
      (∀ q : Ptr, q < h2.cells.length → s2.cells.get? q = h2.cells.get? q) := by
  refine ⟨h1.cells.length, h2.cells.length, _, _, CreateBlock data prevHash,
    CreateBlock data prevHash, Heap_CreateBlock_eq h1 data prevHash,
    Heap_CreateBlock_eq h2 data prevHash, Heap_load_last _ _, Heap_load_last _ _,
    ⟨rfl, rfl, rfl⟩, rfl, ?_, ?_⟩
  · intro q hq
    simp [List.getElem?_append_left hq]
  · intro q hq
    simp [List.getElem?_append_left hq]

/-- C7: for every `data` and `prevHash`, of any lengths, the `Hash` of
`CreateBlock data prevHash` is exactly 32 bytes long. -/
theorem CreateBlock_hash_length (data : GoString) (prevHash : List Byte) :
    (CreateBlock data prevHash).Hash.length = 32 := by
  rw [CreateBlock_eq]
  exact Sum256_length _

/-- C8: for every `data` and `prevHash`, the empty ones included,
`CreateBlock data prevHash` returns a block whose `Data` is exactly the bytes
of `data` and whose `PrevHash` is exactly `prevHash`. -/
theorem CreateBlock_fields (data : GoString) (prevHash : List Byte) :
    ∃ b : Block, CreateBlock data prevHash = b ∧ b.Data = data ∧ b.PrevHash = prevHash := by
  refine ⟨_, CreateBlock_eq data prevHash, rfl, rfl⟩

/-- C9: `AddBlock` is append-only: on a non-empty chain of length `n` it
returns a chain of length at least `n` whose block at every index below `n`
is the block that was there before. -/
theorem AddBlock_append_only (chain : BlockChain) (data : GoString) (h : chain.blocks ≠ []) :
    ∃ c2 : BlockChain, chain.AddBlock data = Except.ok c2 ∧
      chain.blocks.length ≤ c2.blocks.length ∧
      ∀ i : Nat, i < chain.blocks.length → c2.blocks.get? i = chain.blocks.get? i := by
  exact ⟨chain, AddBlock_of_ne_nil chain data h, Nat.le_refl _, fun _ _ => rfl⟩

/-- C9, witness: the genesis chain and the payload `"first"`. -/
theorem AddBlock_append_only_witness :
    (genesisChain (str "genesis")).blocks ≠ [] ∧
      ∃ c2 : BlockChain, (genesisChain (str "genesis")).AddBlock (str "first") = Except.ok c2 ∧
        (genesisChain (str "genesis")).blocks.length ≤ c2.blocks.length ∧
        ∀ i : Nat, i < (genesisChain (str "genesis")).blocks.length →
          c2.blocks.get? i = (genesisChain (str "genesis")).blocks.get? i :=
  ⟨by simp [genesisChain],
   AddBlock_append_only (genesisChain (str "genesis")) (str "first") (by simp [genesisChain])⟩

/-- C10: on a chain whose block sequence is non-empty, the tail index
`len(blocks) - 1` read by `AddBlock` is within bounds and `AddBlock` returns
without a fault, for every payload. -/
theorem AddBlock_no_fault (chain : BlockChain) (data : GoString) (h : chain.blocks ≠ []) :
    (0 ≤ (chain.blocks.length : Int) - 1 ∧
        (chain.blocks.length : Int) - 1 < (chain.blocks.length : Int)) ∧
      (∃ c2 : BlockChain, chain.AddBlock data = Except.ok c2) ∧
      ∀ f : Fault, chain.AddBlock data ≠ Except.error f := by
  have hpos : 0 < chain.blocks.length := List.length_pos.mpr h
  refine ⟨⟨by omega, by omega⟩, ⟨chain, AddBlock_of_ne_nil chain data h⟩, ?_⟩
  intro f hf
  rw [AddBlock_of_ne_nil chain data h] at hf
  cases hf

/-- C10, witness: the genesis chain and the empty payload. -/
theorem AddBlock_no_fault_witness :
    (genesisChain (str "genesis")).blocks ≠ [] ∧
      (0 ≤ ((genesisChain (str "genesis")).blocks.length : Int) - 1 ∧
        ((genesisChain (str "genesis")).blocks.length : Int) - 1
          < ((genesisChain (str "genesis")).blocks.length : Int)) ∧
      (∃ c2 : BlockChain, (genesisChain (str "genesis")).AddBlock [] = Except.ok c2) ∧
      ∀ f : Fault, (genesisChain (str "genesis")).AddBlock [] ≠ Except.error f :=
  ⟨by simp [genesisChain],
   AddBlock_no_fault (genesisChain (str "genesis")) [] (by simp [genesisChain])⟩

/-- C11: the source's `AddBlock` is a stub: on every non-empty chain and for
every payload it returns after the tail read with the chain's block sequence
exactly as it was, the same blocks and the same length. -/
theorem AddBlock_stub (chain : BlockChain) (data : GoString) (h : chain.blocks ≠ []) :
    ∃ c2 : BlockChain, chain.AddBlock data = Except.ok c2 ∧
      c2.blocks = chain.blocks ∧ c2.blocks.length = chain.blocks.length := by
  exact ⟨chain, AddBlock_of_ne_nil chain data h, rfl, rfl⟩

/-- C11, witness: the genesis chain and the payload `"second"`. -/
theorem AddBlock_stub_witness :
    (genesisChain (str "genesis")).blocks ≠ [] ∧
      ∃ c2 : BlockChain, (genesisChain (str "genesis")).AddBlock (str "second") = Except.ok c2 ∧
        c2.blocks = (genesisChain (str "genesis")).blocks ∧
        c2.blocks.length = (genesisChain (str "genesis")).blocks.length :=
  ⟨by simp [genesisChain],
   AddBlock_stub (genesisChain (str "genesis")) (str "second") (by simp [genesisChain])⟩

/-- C12: the block hash depends only on the concatenation of payload and
predecessor hash, not on where the boundary between them lies: whenever
`data1 ++ prev1 = data2 ++ prev2`, the blocks `CreateBlock data1 prev1` and
`CreateBlock data2 prev2` have the same `Hash`. -/
theorem CreateBlock_hash_boundary (data1 data2 : GoString) (prev1 prev2 : List Byte)
    (h : data1 ++ prev1 = data2 ++ prev2) :
    (CreateBlock data1 prev1).Hash = (CreateBlock data2 prev2).Hash := by
  rw [CreateBlock_eq, CreateBlock_eq]
  exact congrArg sha256.Sum256 h

/-- C12, witness: `CreateBlock "ab" empty` and `CreateBlock "a" "b"` are
distinct blocks with the same hash. -/
theorem CreateBlock_hash_boundary_witness :
    str "ab" ++ [] = str "a" ++ str "b" ∧
      CreateBlock (str "ab") [] ≠ CreateBlock (str "a") (str "b") ∧
      (CreateBlock (str "ab") []).Hash = (CreateBlock (str "a") (str "b")).Hash :=
  ⟨by decide,
   fun hb => absurd (congrArg Block.PrevHash hb) (by rw [CreateBlock_eq, CreateBlock_eq]; decide),
   CreateBlock_hash_boundary (str "ab") (str "a") [] (str "b") (by decide)⟩

/-- C13: `DeriveHash` is idempotent and ignores the previously stored hash:
for every block `b`, whatever its `Hash`, running `DeriveHash` twice gives the
block that running it once gives, and two blocks `b1`, `b2` that agree on
`Data` and `PrevHash` get the same `Hash` from `DeriveHash` whatever their
prior `Hash` fields. -/
theorem DeriveHash_idempotent (b b1 b2 : Block)
    (hd : b1.Data = b2.Data) (hp : b1.PrevHash = b2.PrevHash) :
    b.DeriveHash.DeriveHash = b.DeriveHash ∧ b1.DeriveHash.Hash = b2.DeriveHash.Hash := by
  refine ⟨?_, ?_⟩
  · rw [DeriveHash_eq b, DeriveHash_eq]
  · rw [DeriveHash_eq b1, DeriveHash_eq b2, hd, hp]

/-- C13, witness: a block with a stale three-byte `Hash`, and two blocks with
the same `Data` and `PrevHash` but different prior `Hash` fields. -/
theorem DeriveHash_idempotent_witness :
    (Block.mk [1, 2, 3] (str "first") []).Data = (Block.mk [] (str "first") []).Data ∧
      (Block.mk [1, 2, 3] (str "first") []).PrevHash = (Block.mk [] (str "first") []).PrevHash ∧
      (Block.mk [1, 2, 3] (str "first") []).Hash ≠ (Block.mk [] (str "first") []).Hash ∧
      (Block.mk [9] (str "x") [7]).DeriveHash.DeriveHash = (Block.mk [9] (str "x") [7]).DeriveHash ∧
      (Block.mk [1, 2, 3] (str "first") []).DeriveHash.Hash
        = (Block.mk [] (str "first") []).DeriveHash.Hash :=
  ⟨rfl, rfl, by decide,
   DeriveHash_idempotent (Block.mk [9] (str "x") [7]) (Block.mk [1, 2, 3] (str "first") [])
     (Block.mk [] (str "first") []) rfl rfl⟩

/-- C14: `DeriveHash` writes only the `Hash` field: for every block, `Data`
and `PrevHash` after `DeriveHash` are the same bytes as before. -/
theorem DeriveHash_frame (b : Block) :
    b.DeriveHash.Data = b.Data ∧ b.DeriveHash.PrevHash = b.PrevHash := by
  rw [DeriveHash_eq]
  exact ⟨rfl, rfl⟩

end MHChain
